import Mathlib

/-
  Verification of the streaming sentence segmenter in
  `stream2sentence/stream2sentence.py`.

  The Python source is shallowly embedded below.  Strings are modelled as
  `List Char`; each embedded definition carries the name of the Python
  function (or code region) it translates.  Python's character
  classification methods (`str.isalpha`, `str.isalnum`, `str.isspace`) are
  modelled by Lean's ASCII-based character predicates; all concrete inputs
  used in theorems and witnesses are ASCII, where the two agree.
-/

set_option linter.unusedVariables false

namespace Stream2Sentence

/-! ## Character-level primitives (models of Python `str` methods) -/

/-- Model of Python `str.isspace` for a single character. -/
def pyIsSpace (c : Char) : Bool := c.isWhitespace

/-- Model of Python `str.isalpha` for a single character. -/
def pyIsAlpha (c : Char) : Bool := c.isAlpha

/-- Model of Python `str.isalnum` for a single character. -/
def pyIsAlnum (c : Char) : Bool := c.isAlphanum

/-- Model of Python `str.lstrip()` (no arguments: strips whitespace). -/
def lstrip (l : List Char) : List Char := l.dropWhile pyIsSpace

/-- Model of Python `str.rstrip()`. -/
def rstrip (l : List Char) : List Char := (l.reverse.dropWhile pyIsSpace).reverse

/-- Model of Python `str.strip()`: whitespace removed from both ends. -/
def strip (l : List Char) : List Char := lstrip (rstrip l)

/-- Worker for `pySplit`: `acc` is the (reversed) current word. -/
def pySplitGo : List Char → List Char → List (List Char)
  | [], acc => if acc = [] then [] else [acc.reverse]
  | c :: rest, acc =>
    if pyIsSpace c then
      (if acc = [] then pySplitGo rest [] else acc.reverse :: pySplitGo rest [])
    else pySplitGo rest (c :: acc)

/-- Model of Python `str.split()` (no arguments): split on whitespace runs,
discarding empty pieces. -/
def pySplit (l : List Char) : List (List Char) := pySplitGo l []

/-! ## Delimiter categories (module-level constants of the source) -/

/-- `STRONG_DELIMITERS` from the source. -/
def STRONG_DELIMITERS : List Char := ['.', '!', '?', '\n', '…', '。']

/-- `WEAK_DELIMITERS` from the source. -/
def WEAK_DELIMITERS : List Char := [',', ';', ':', '—']

/-- `IGNORED_DELIMITERS` from the source. -/
def IGNORED_DELIMITERS : List Char :=
  ['\x22', '\x27', '(', ')', '[', ']', '\x7b', '\x7d', '«', '»', '\r', ' ']

/-- `SENTENCE_FRAGMENT_DELIMITERS = STRONG_DELIMITERS | WEAK_DELIMITERS`. -/
def SENTENCE_FRAGMENT_DELIMITERS : List Char := STRONG_DELIMITERS ++ WEAK_DELIMITERS

/-! ## The boundary heuristic `_is_likely_sentence_boundary` -/

/-- The contiguous run of alphabetic / hyphen / underscore characters
immediately preceding position `pos` of `text`.  This models the backward
`while word_start >= 0 and (text[word_start].isalpha() or text[word_start]
in ("-","_"))` scan of `_is_likely_sentence_boundary`, whose net effect is
`text[word_start + 1 : pos]`, the maximal such suffix of `text[:pos]`. -/
def wordRunBefore (text : List Char) (pos : Nat) : List Char :=
  ((text.take pos).reverse.takeWhile
    (fun c => pyIsAlpha c || c = '-' || c = '_')).reverse

/-- Model of `_is_likely_sentence_boundary(text, delimiter_pos)`.  Python
indexes `text[delimiter_pos]` (guaranteed in range at every call site);
the embedding uses `List.getD` with a default of `' '`, which is neither
`','` nor `'.'`.  The unused `next_chars` parameter of the source is
omitted. -/
def is_likely_sentence_boundary (text : List Char) (delimiter_pos : Nat) : Bool :=
  if delimiter_pos < 1 then false
  else if text.getD delimiter_pos ' ' = ',' then
    (if (strip (text.take delimiter_pos)).length < 4 then false
     else
       match (pySplit (strip (text.take delimiter_pos))).getLast? with
       | some w => if w.length ≤ 3 then false else true
       | none => true)
  else if text.getD delimiter_pos ' ' = '.' then
    (if (wordRunBefore text delimiter_pos).length ≤ 2 ∧
        delimiter_pos + 1 < text.length ∧
        (pyIsAlnum (text.getD (delimiter_pos + 1) ' ') = true ∨
         text.getD (delimiter_pos + 1) ' ' = '.') then false
     else true)
  else true

/-! ## Claims C4 and C5: the boundary heuristic -/

/-- C4: for every text and position `p` whose character is a comma,
`_is_likely_sentence_boundary(text, p)` returns `False` if the trimmed
text preceding `p` is shorter than 4 characters, or if the last
whitespace-separated word token preceding the comma has length at most 3
(in particular a comma directly following a 2-character word is never
accepted as a boundary). -/
theorem comma_guard_rejects (text : List Char) (p : Nat)
    (hc : text.getD p ' ' = ',')
    (h : (strip (text.take p)).length < 4 ∨
         ∃ w, (pySplit (strip (text.take p))).getLast? = some w ∧ w.length ≤ 3) :
    is_likely_sentence_boundary text p = false := by
  unfold is_likely_sentence_boundary
  by_cases hp : p < 1
  · rw [if_pos hp]
  · rw [if_neg hp, if_pos hc]
    rcases h with h4 | ⟨w, hw, hw3⟩
    · rw [if_pos h4]
    · by_cases h4 : (strip (text.take p)).length < 4
      · rw [if_pos h4]
      · rw [if_neg h4, hw]
        exact if_pos hw3

/-- C4 witness: the comma in `"Mr, he went"` (position 2, following the
2-character word `"Mr"`) is rejected by the heuristic. -/
theorem comma_guard_rejects_witness :
    ("Mr, he went".toList.getD 2 ' ' = ',') ∧
    is_likely_sentence_boundary "Mr, he went".toList 2 = false :=
  ⟨by decide, comma_guard_rejects _ 2 (by decide) (Or.inl (by decide))⟩

/-- C5: (a) for any position `p < 1` the heuristic returns `False`;
(b) for a period at position `p ≥ 1`, it returns `False` exactly when the
maximal alphabetic/hyphen/underscore run immediately preceding the period
has length at most 2 and the character immediately after the period exists
and is alphanumeric or itself a period; (c) for every delimiter character
other than comma and period at a position `p ≥ 1` it returns `True`. -/
theorem period_guard_characterization :
    (∀ (text : List Char) (p : Nat), p < 1 →
       is_likely_sentence_boundary text p = false) ∧
    (∀ (text : List Char) (p : Nat), 1 ≤ p → text.getD p ' ' = '.' →
       (is_likely_sentence_boundary text p = false ↔
         (wordRunBefore text p).length ≤ 2 ∧ p + 1 < text.length ∧
         (pyIsAlnum (text.getD (p + 1) ' ') = true ∨
          text.getD (p + 1) ' ' = '.'))) ∧
    (∀ (text : List Char) (p : Nat) (c : Char), 1 ≤ p →
       text.getD p ' ' = c → c ∈ SENTENCE_FRAGMENT_DELIMITERS →
       c ≠ ',' → c ≠ '.' →
       is_likely_sentence_boundary text p = true) := by
  refine ⟨?_, ?_, ?_⟩
  · intro text p hp
    unfold is_likely_sentence_boundary
    rw [if_pos hp]
  · intro text p hp hdot
    have hp' : ¬ p < 1 := by omega
    have hnc : ¬ text.getD p ' ' = ',' := by
      rw [hdot]; decide
    unfold is_likely_sentence_boundary
    rw [if_neg hp', if_neg hnc, if_pos hdot]
    constructor
    · intro h
      by_contra hcond
      rw [if_neg hcond] at h
      exact absurd h (by simp)
    · intro hcond
      rw [if_pos hcond]
  · intro text p c hp hc hmem hnc hnd
    have hp' : ¬ p < 1 := by omega
    have h1 : ¬ text.getD p ' ' = ',' := by rw [hc]; exact hnc
    have h2 : ¬ text.getD p ' ' = '.' := by rw [hc]; exact hnd
    unfold is_likely_sentence_boundary
    rw [if_neg hp', if_neg h1, if_neg h2]

/-- C5 witness: `p = 0` is rejected; the period of `"ab.cd"` (2-letter run
`"ab"`, followed by the letter `"c"`) is rejected; the exclamation mark of
`"Hello there!! ok"` at position 11 is accepted. -/
theorem period_guard_characterization_witness :
    is_likely_sentence_boundary "x.".toList 0 = false ∧
    is_likely_sentence_boundary "ab.cd".toList 2 = false ∧
    is_likely_sentence_boundary "Hello there!! ok".toList 11 = true := by
  refine ⟨period_guard_characterization.1 _ 0 (by decide),
          (period_guard_characterization.2.1 _ 2 (by decide) (by decide)).mpr
            (by decide),
          period_guard_characterization.2.2 _ 11 '!' (by decide) (by decide)
            (by decide) (by decide) (by decide)⟩

/-! ## The tokenizer adapter `_tokenize_sentences` -/

/-- Result of one attempted invocation of the underlying segmentation
backend (the `nltk`/`stanza` code inside `_tokenize_sentences`): a
sentence list, the source's early `return [text]` when the stanza
pipeline is uninitialized (`nlp is None`), or a raised exception
(including the `ValueError` for an unknown tokenizer name). -/
inductive BackendResult where
  | ok (sentences : List (List Char))
  | rawFallback
  | raised
deriving DecidableEq

/-- The short-sentence merging loop of `_tokenize_sentences` (local
variables `combined_sentences` and `temp_sentence`); `temp` is the current
value of `temp_sentence`, and the returned list is what the loop appends
to `combined_sentences` from this point on, including the final
`if temp_sentence:` flush. -/
def combineLoop : List (List Char) → List Char → List (List Char)
  | [], temp => if temp = [] then [] else [strip temp]
  | s :: rest, temp =>
    if s.length < 10 then combineLoop rest (temp ++ s ++ [' '])
    else if temp = [] then strip s :: combineLoop rest []
    else strip (temp ++ s) :: combineLoop rest []

/-- `combined_sentences` as computed from the raw tokenizer output. -/
def combineShort (sentences : List (List Char)) : List (List Char) :=
  combineLoop sentences []

/-- The short-sentence post-pass of `_tokenize_sentences`: the merged list
is adopted only when non-empty and strictly shorter than the raw list
(`combined_sentences if combined_sentences and len(combined_sentences) <
len(sentences) else sentences`). -/
def mergeAdopt (sentences : List (List Char)) : List (List Char) :=
  if combineShort sentences ≠ [] ∧
     (combineShort sentences).length < sentences.length then
    combineShort sentences
  else sentences

/-- The tail of the `try` block of `_tokenize_sentences`: the post-pass
followed by the `result = result if result else [text]` fallback. -/
def postProcess (sentences : List (List Char)) (text : List Char) :
    List (List Char) :=
  if mergeAdopt sentences = [] then [text] else mergeAdopt sentences

/-- Worker for `splitLines`; `acc` is the reversed current line. -/
def splitLinesGo : List Char → List Char → List (List Char)
  | [], acc => [acc.reverse]
  | c :: rest, acc =>
    if c = '\n' then acc.reverse :: splitLinesGo rest []
    else splitLinesGo rest (c :: acc)

/-- Model of Python `text.split(chr(10))`: split at every newline,
keeping empty pieces. -/
def splitLines (l : List Char) : List (List Char) := splitLinesGo l []

/-- Model of `text.replace` of newline by space (poetic mode). -/
def nlToSpace (l : List Char) : List Char :=
  l.map (fun c => if c = '\n' then ' ' else c)

/-- Model of `_tokenize_sentences(text, tokenize_sentences, poetic_mode,
preserve_line_breaks)`.  `custom` is the optional `tokenize_sentences`
callback (which may raise, modelled by `Except`); `backend` models the
`nltk`/`stanza` invocation on the (possibly newline-replaced) text.  The
surrounding `try`/`except` returns `[text]` on any exception — with
`text` as already rebound by the poetic-mode `replace`. -/
def tokenize_sentences (custom : Option (List Char → Except Unit (List (List Char))))
    (backend : List Char → BackendResult)
    (poetic_mode preserve_line_breaks : Bool)
    (text : List Char) : List (List Char) :=
  match custom with
  | some f =>
    match f text with
    | Except.error _ => [text]
    | Except.ok sentences => postProcess sentences text
  | none =>
    if poetic_mode then
      if preserve_line_breaks then
        postProcess ((splitLines text).filter (fun line => strip line ≠ [])) text
      else
        match backend (nlToSpace text) with
        | BackendResult.ok sentences => postProcess sentences (nlToSpace text)
        | BackendResult.rawFallback => [nlToSpace text]
        | BackendResult.raised => [nlToSpace text]
    else
      match backend text with
      | BackendResult.ok sentences => postProcess sentences text
      | BackendResult.rawFallback => [text]
      | BackendResult.raised => [text]

/-! ## Claim C8: characterization of the short-sentence post-pass -/

/-- Entry shorter than 10 characters (the merge threshold). -/
def isShortSentence (s : List Char) : Bool := s.length < 10

/-- The entries of `l` joined with single spaces (the claim's phrase
"joined with spaces"). -/
def joinSp (l : List (List Char)) : List Char := (l.intersperse [' ']).flatten

/-- What the source loop physically accumulates for a run of short
entries: each entry followed by one space. -/
def glue (run : List (List Char)) : List Char :=
  (run.map (fun s => s ++ [' '])).flatten

theorem length_dropWhile_le {α : Type} (p : α → Bool) (l : List α) :
    (l.dropWhile p).length ≤ l.length := by
  induction l with
  | nil => simp [List.dropWhile]
  | cons a l ih =>
    by_cases h : p a
    · simp only [List.dropWhile, h, List.length_cons]
      omega
    · simp [List.dropWhile, h]

/-- Fuel-driven worker for `specMergeShort`; the fuel always suffices at
`ss.length + 1`. -/
def specMergeGo : Nat → List (List Char) → List (List Char)
  | 0, _ => []
  | Nat.succ fuel, ss =>
    match ss.dropWhile isShortSentence with
    | [] =>
      if ss.takeWhile isShortSentence = [] then []
      else [strip (joinSp (ss.takeWhile isShortSentence))]
    | e :: rest =>
      strip (joinSp (ss.takeWhile isShortSentence ++ [e])) :: specMergeGo fuel rest

/-- Modelled from the claim's words (C8): each maximal run of adjacent
entries shorter than 10 characters is merged into the entry that follows
it, the group joined with spaces and the result stripped; a lone long
entry is stripped; a trailing short run with no following entry becomes a
single merged stripped entry. -/
def specMergeShort (ss : List (List Char)) : List (List Char) :=
  specMergeGo (ss.length + 1) ss

theorem rstrip_append_space (x : List Char) : rstrip (x ++ [' ']) = rstrip x := by
  simp [rstrip, List.dropWhile, pyIsSpace]

theorem strip_append_space (x : List Char) : strip (x ++ [' ']) = strip x := by
  rw [strip, strip, rstrip_append_space]

theorem joinSp_cons_of_ne_nil (s : List Char) (l : List (List Char)) (h : l ≠ []) :
    joinSp (s :: l) = s ++ ' ' :: joinSp l := by
  cases l with
  | nil => exact absurd rfl h
  | cons t l' => simp [joinSp, List.intersperse]

theorem glue_cons (s : List Char) (l : List (List Char)) :
    glue (s :: l) = s ++ ' ' :: glue l := by
  simp [glue]

theorem joinSp_append_last (run : List (List Char)) (e : List Char) :
    joinSp (run ++ [e]) = glue run ++ e := by
  induction run with
  | nil => simp [joinSp, glue, List.intersperse]
  | cons s run ih =>
    rw [List.cons_append, joinSp_cons_of_ne_nil s (run ++ [e]) (by simp), ih,
      glue_cons]
    simp [List.append_assoc]

theorem glue_cons_eq_joinSp (s : List Char) (l : List (List Char)) :
    glue (s :: l) = joinSp (s :: l) ++ [' '] := by
  induction l generalizing s with
  | nil => simp [glue, joinSp, List.intersperse]
  | cons t l'' ih =>
    rw [glue_cons, ih t, joinSp_cons_of_ne_nil s (t :: l'') (by simp)]
    simp

theorem strip_glue_eq_strip_joinSp (run : List (List Char)) :
    strip (glue run) = strip (joinSp run) := by
  cases run with
  | nil => simp [glue, joinSp, List.intersperse]
  | cons s run' => rw [glue_cons_eq_joinSp, strip_append_space]

theorem glue_ne_nil (run : List (List Char)) (h : run ≠ []) : glue run ≠ [] := by
  cases run with
  | nil => exact absurd rfl h
  | cons s run' => simp [glue]

theorem dropWhile_append_of_all {α : Type} (p : α → Bool) (pre l : List α)
    (h : ∀ x ∈ pre, p x = true) :
    (pre ++ l).dropWhile p = l.dropWhile p := by
  induction pre with
  | nil => rfl
  | cons a pre ih =>
    have ha := h a (by simp)
    simp only [List.cons_append, List.dropWhile, ha]
    exact ih (fun x hx => h x (by simp [hx]))

theorem takeWhile_append_of_all {α : Type} (p : α → Bool) (pre : List α)
    (s : α) (l : List α) (h : ∀ x ∈ pre, p x = true) (hs : p s = false) :
    (pre ++ s :: l).takeWhile p = pre := by
  induction pre with
  | nil => simp [List.takeWhile, hs]
  | cons a pre ih =>
    have ha := h a (by simp)
    simp only [List.cons_append, List.takeWhile, ha]
    rw [show (pre.append (s :: l)) = pre ++ s :: l from rfl,
      ih (fun x hx => h x (by simp [hx]))]

theorem takeWhile_eq_self_of_all {α : Type} (p : α → Bool) (l : List α)
    (h : ∀ x ∈ l, p x = true) : l.takeWhile p = l := by
  induction l with
  | nil => rfl
  | cons a l ih =>
    have ha := h a (by simp)
    simp only [List.takeWhile, ha]
    rw [ih (fun x hx => h x (by simp [hx]))]

theorem dropWhile_eq_nil_of_all {α : Type} (p : α → Bool) (l : List α)
    (h : ∀ x ∈ l, p x = true) : l.dropWhile p = [] := by
  induction l with
  | nil => rfl
  | cons a l ih =>
    have ha := h a (by simp)
    simp only [List.dropWhile, ha]
    exact ih (fun x hx => h x (by simp [hx]))

theorem specMergeGo_fuel_irrelevant (f1 : Nat) :
    ∀ (ss : List (List Char)) (f2 : Nat), ss.length < f1 → ss.length < f2 →
      specMergeGo f1 ss = specMergeGo f2 ss := by
  induction f1 with
  | zero => intro ss f2 h1 _; omega
  | succ k ih =>
    intro ss f2 h1 h2
    cases f2 with
    | zero => omega
    | succ m =>
      cases hd : ss.dropWhile isShortSentence with
      | nil => rw [specMergeGo, specMergeGo, hd]
      | cons e rest =>
        have hle := length_dropWhile_le isShortSentence ss
        rw [hd] at hle
        simp only [List.length_cons] at hle
        rw [specMergeGo, specMergeGo, hd]
        show _ :: specMergeGo k rest = _ :: specMergeGo m rest
        rw [ih rest m (by omega) (by omega)]

theorem specMergeShort_of_dropWhile_nil (ss : List (List Char))
    (h : ss.dropWhile isShortSentence = []) :
    specMergeShort ss =
      (if ss.takeWhile isShortSentence = [] then []
       else [strip (joinSp (ss.takeWhile isShortSentence))]) := by
  rw [specMergeShort, specMergeGo, h]

theorem specMergeShort_of_dropWhile_cons (ss : List (List Char))
    (e : List Char) (rest : List (List Char))
    (h : ss.dropWhile isShortSentence = e :: rest) :
    specMergeShort ss =
      strip (joinSp (ss.takeWhile isShortSentence ++ [e])) ::
        specMergeShort rest := by
  have hle := length_dropWhile_le isShortSentence ss
  rw [h] at hle
  simp only [List.length_cons] at hle
  rw [specMergeShort, specMergeGo, h]
  show _ :: specMergeGo ss.length rest = _
  rw [specMergeShort,
    specMergeGo_fuel_irrelevant ss.length rest (rest.length + 1) (by omega)
      (by omega)]

theorem combineLoop_eq_specMergeShort (ss : List (List Char)) :
    ∀ pre : List (List Char), (∀ s ∈ pre, s.length < 10) →
      combineLoop ss (glue pre) = specMergeShort (pre ++ ss) := by
  induction ss with
  | nil =>
    intro pre hpre
    rw [List.append_nil]
    have hdrop : pre.dropWhile isShortSentence = [] :=
      dropWhile_eq_nil_of_all _ pre
        (fun x hx => by simp [isShortSentence, hpre x hx])
    rw [specMergeShort_of_dropWhile_nil _ hdrop,
      takeWhile_eq_self_of_all _ pre
        (fun x hx => by simp [isShortSentence, hpre x hx])]
    cases hp : pre with
    | nil => simp [combineLoop, glue]
    | cons a pre' =>
      have hg : glue pre ≠ [] := glue_ne_nil pre (by simp [hp])
      rw [← hp, combineLoop, if_neg hg, if_neg (by simp [hp]),
        strip_glue_eq_strip_joinSp]
  | cons s rest ih =>
    intro pre hpre
    by_cases hs : s.length < 10
    · have step : combineLoop (s :: rest) (glue pre) =
          combineLoop rest (glue (pre ++ [s])) := by
        rw [combineLoop, if_pos hs]
        congr 1
        induction pre with
        | nil => simp [glue]
        | cons a pre' ihp => simp [glue, List.append_assoc]
      rw [step, ih (pre ++ [s]) (fun x hx => by
        rcases List.mem_append.mp hx with h | h
        · exact hpre x h
        · simp at h; subst h; exact hs)]
      rw [List.append_assoc]
      rfl
    · have hdrop : (pre ++ s :: rest).dropWhile isShortSentence = s :: rest := by
        rw [dropWhile_append_of_all _ pre _
          (fun x hx => by simp [isShortSentence, hpre x hx])]
        simp only [List.dropWhile]
        rw [show isShortSentence s = false by simp [isShortSentence, hs]]
      have htake : (pre ++ s :: rest).takeWhile isShortSentence = pre :=
        takeWhile_append_of_all _ pre s rest
          (fun x hx => by simp [isShortSentence, hpre x hx])
          (by simp [isShortSentence, hs])
      rw [specMergeShort_of_dropWhile_cons _ s rest hdrop, htake,
        joinSp_append_last]
      have tail := ih [] (by intro x hx; cases hx)
      simp only [List.nil_append] at tail
      rw [show (glue []) = [] from rfl] at tail
      rw [combineLoop, if_neg hs]
      by_cases hp : glue pre = []
      · rw [if_pos hp, hp, tail]
        simp
      · rw [if_neg hp, tail]

theorem combineShort_eq_specMergeShort (ss : List (List Char)) :
    combineShort ss = specMergeShort ss := by
  have h := combineLoop_eq_specMergeShort ss [] (by intro x hx; cases hx)
  simp only [List.nil_append] at h
  rw [combineShort]
  rw [show (glue []) = [] from rfl] at h
  exact h

/-- C8: the short-sentence post-pass merges each run of adjacent entries
shorter than 10 characters into the following entry (joined with spaces,
stripped; non-merged entries are stripped, and a trailing short run
becomes one merged entry), and the merged list replaces the raw tokenizer
result if and only if it is non-empty and strictly shorter than the raw
result; otherwise the raw result is returned unchanged. -/
theorem short_sentence_post_pass_characterization (sentences : List (List Char)) :
    mergeAdopt sentences =
      (if specMergeShort sentences ≠ [] ∧
          (specMergeShort sentences).length < sentences.length then
        specMergeShort sentences
      else sentences) := by
  rw [mergeAdopt, combineShort_eq_specMergeShort]

/-! ## Claim C7: `_tokenize_sentences` never fails and falls back to the text -/

theorem postProcess_ne_nil (s : List (List Char)) (t : List Char) :
    postProcess s t ≠ [] := by
  rw [postProcess]
  by_cases h : mergeAdopt s = []
  · rw [if_pos h]; simp
  · rw [if_neg h]; exact h

theorem mergeAdopt_nil : mergeAdopt [] = [] := by decide

/-- C7 (amended): for every text, backend and custom callback — including
raising ones — `_tokenize_sentences` returns a non-empty list and never
raises; on an internal exception or an empty tokenization result it
returns the one-element list containing the text as of the failure point:
the input unchanged, except that in poetic mode without
`preserve_line_breaks` the newlines have already been replaced by spaces,
so the fallback is the newline-replaced input. -/
theorem tokenize_sentences_total_fallback :
    (∀ custom backend (pm plb : Bool) (text : List Char),
        tokenize_sentences custom backend pm plb text ≠ []) ∧
    (∀ f backend (pm plb : Bool) (text : List Char),
        f text = Except.error () →
        tokenize_sentences (some f) backend pm plb text = [text]) ∧
    (∀ f backend (pm plb : Bool) (text : List Char),
        f text = Except.ok [] →
        tokenize_sentences (some f) backend pm plb text = [text]) ∧
    (∀ backend (plb : Bool) (text : List Char),
        (backend text = BackendResult.raised ∨
         backend text = BackendResult.rawFallback ∨
         backend text = BackendResult.ok []) →
        tokenize_sentences none backend false plb text = [text]) ∧
    (∀ backend (text : List Char),
        (backend (nlToSpace text) = BackendResult.raised ∨
         backend (nlToSpace text) = BackendResult.rawFallback ∨
         backend (nlToSpace text) = BackendResult.ok []) →
        tokenize_sentences none backend true false text = [nlToSpace text]) ∧
    (∀ backend (text : List Char),
        (splitLines text).filter (fun line => strip line ≠ []) = [] →
        tokenize_sentences none backend true true text = [text]) := by
  refine ⟨?_, ?_, ?_, ?_, ?_, ?_⟩
  · intro custom backend pm plb text
    cases custom with
    | some f =>
      simp only [tokenize_sentences]
      cases f text with
      | error e => simp
      | ok sentences => exact postProcess_ne_nil _ _
    | none =>
      simp only [tokenize_sentences]
      by_cases hpm : pm = true
      · rw [if_pos hpm]
        by_cases hplb : plb = true
        · rw [if_pos hplb]; exact postProcess_ne_nil _ _
        · rw [if_neg hplb]
          cases backend (nlToSpace text) with
          | ok sentences => exact postProcess_ne_nil _ _
          | rawFallback => simp
          | raised => simp
      · rw [if_neg hpm]
        cases backend text with
        | ok sentences => exact postProcess_ne_nil _ _
        | rawFallback => simp
        | raised => simp
  · intro f backend pm plb text hf
    simp only [tokenize_sentences, hf]
  · intro f backend pm plb text hf
    simp only [tokenize_sentences, hf]
    rw [postProcess, if_pos mergeAdopt_nil]
  · intro backend plb text hb
    rcases hb with h | h | h
    · simp [tokenize_sentences, h]
    · simp [tokenize_sentences, h]
    · simp only [tokenize_sentences, Bool.false_eq_true, if_false, h]
      rw [postProcess, if_pos mergeAdopt_nil]
  · intro backend text hb
    rcases hb with h | h | h
    · simp [tokenize_sentences, h]
    · simp [tokenize_sentences, h]
    · simp only [tokenize_sentences, if_true, h, Bool.false_eq_true, if_false]
      rw [postProcess, if_pos mergeAdopt_nil]
  · intro backend text hlines
    simp only [tokenize_sentences, if_true, hlines]
    rw [postProcess, if_pos mergeAdopt_nil]

/-- C7 witness: a raising custom callback falls back to the unchanged
input, and the result is non-empty. -/
theorem tokenize_sentences_total_fallback_witness :
    ((fun (_ : List Char) =>
        (Except.error () : Except Unit (List (List Char)))) "abc".toList
      = Except.error ()) ∧
    tokenize_sentences
      (some (fun _ => Except.error ()))
      (fun _ => BackendResult.raised) false false "abc".toList
      = ["abc".toList] :=
  ⟨rfl, tokenize_sentences_total_fallback.2.1
    (fun _ => Except.error ()) (fun _ => BackendResult.raised)
    false false "abc".toList rfl⟩

/-- C7 counterexample: the claim says the fallback is always the input
text unchanged, but in poetic mode without `preserve_line_breaks`, an
internal exception yields the input with newlines replaced by spaces,
which differs from the input. -/
theorem tokenize_sentences_unchanged_counterexample :
    tokenize_sentences none (fun _ => BackendResult.raised) true false
      ("a\nb".toList) = ["a b".toList] ∧
    ("a b".toList : List Char) ≠ "a\nb".toList := by
  constructor
  · rfl
  · decide

/-! ## The streaming generator `generate_sentences_async` -/

/-- The configuration surface of `generate_sentences_async`.  Numeric
parameters are sizes, modelled as `Nat` (the source is called with
non-negative ints); where the source computes `context_size - 1` the
embedding uses `Int` subtraction to match Python semantics.  Parameters
with no behavioral effect on emissions are omitted: `log_characters`,
`debug` (logging only), `tokenizer` and `language` (backend selection,
modelled by `Ext`), `cleanup_text_links` (explicitly ignored),
`adaptive_context` and `smooth_short_fragments` (never read), and
`context_size_look_overhead` (only used for two local variables that are
never read). -/
structure Config where
  context_size : Nat := 15
  minimum_sentence_length : Nat := 12
  minimum_first_fragment_length : Nat := 8
  quick_yield_single_sentence_fragment : Bool := true
  quick_yield_for_all_sentences : Bool := false
  quick_yield_every_fragment : Bool := false
  cleanup_text_emojis : Bool := false
  filter_first_non_alnum_characters : Bool := true
  force_first_fragment_after_words : Nat := 15
  poetic_mode : Bool := false
  preserve_line_breaks : Bool := false
  max_buffer_size : Nat := 700
  tokenization_interval : Nat := 6
  strict_punctuation_mode : Bool := true
  min_chars_after_delimiter : Nat := 25
  sentence_fragment_delimiters : List Char := ".?!;:,\n…)]\x7d。—".toList
  full_sentence_delimiters : List Char := ".?!\n…。—".toList

/-- External collaborators of the generator: the optional custom
`tokenize_sentences` callback, the segmentation backend, and the emoji
predicate used by `_remove_emojis`. -/
structure Ext where
  custom : Option (List Char → Except Unit (List (List Char)))
  backend : List Char → BackendResult
  isEmoji : Char → Bool

/-- Model of `_clean_text(text, cleanup_text_emojis)` (the generator
always leaves `strip_text=True`); `emoji.replace_emoji(text, "")` is
modelled as dropping the characters satisfying `isEmoji`. -/
def clean_text (cfg : Config) (ext : Ext) (text : List Char) : List Char :=
  strip (if cfg.cleanup_text_emojis then
           text.filter (fun c => !(ext.isEmoji c))
         else text)

/-- The mutable loop state of `generate_sentences_async`. -/
structure GenState where
  buffer : List Char
  is_first_sentence : Bool
  word_count : Nat
  last_delimiter_position : Int
  fragment_count : Nat
  tokenization_counter : Nat
  chars_since_last_strong_delim : Nat
deriving DecidableEq

/-- The state of the generator before the first character. -/
def initState : GenState :=
  { buffer := [], is_first_sentence := true, word_count := 0,
    last_delimiter_position := -1, fragment_count := 0,
    tokenization_counter := 0, chars_since_last_strong_delim := 0 }

/-- The flag adjustment at the top of `generate_sentences_async`:
`quick_yield_every_fragment` forces `quick_yield_for_all_sentences`,
which forces `quick_yield_single_sentence_fragment`. -/
def adjustConfig (cfg : Config) : Config :=
  { cfg with
    quick_yield_for_all_sentences :=
      cfg.quick_yield_every_fragment || cfg.quick_yield_for_all_sentences,
    quick_yield_single_sentence_fragment :=
      cfg.quick_yield_every_fragment || cfg.quick_yield_for_all_sentences ||
        cfg.quick_yield_single_sentence_fragment }

/-- The incoming character is discarded by the leading non-alphanumeric
filter: buffer empty, filter enabled, character neither alphanumeric nor
an allowed opening character. -/
def filteredOut (cfg : Config) (st : GenState) (char : Char) : Prop :=
  st.buffer.length = 0 ∧ cfg.filter_first_non_alnum_characters = true ∧
  pyIsAlnum char = false ∧ char ∉ ['(', '[', '«', '\x22', '\x27']

instance (cfg : Config) (st : GenState) (char : Char) :
    Decidable (filteredOut cfg st char) := by
  unfold filteredOut
  infer_instance

/-- The buffer/counter update at the top of the loop body: append the
character, `lstrip` the buffer, update `word_count` (on whitespace or any
fragment delimiter) and `chars_since_last_strong_delim` (reset on a full
delimiter; unchanged on an ignored character reached via the whitespace
branch; incremented otherwise). -/
def stepCounters (cfg : Config) (st : GenState) (char : Char) : GenState :=
  { st with
    buffer := lstrip (st.buffer ++ [char]),
    word_count :=
      if pyIsSpace char = true ∨ char ∈ cfg.sentence_fragment_delimiters then
        st.word_count + 1
      else st.word_count,
    chars_since_last_strong_delim :=
      if pyIsSpace char = true ∨ char ∈ cfg.sentence_fragment_delimiters then
        (if char ∈ cfg.full_sentence_delimiters then 0
         else if char ∈ IGNORED_DELIMITERS then st.chars_since_last_strong_delim
         else st.chars_since_last_strong_delim + 1)
      else st.chars_since_last_strong_delim + 1 }

/-- `buffer[-1]`.  Call sites in the source guarantee a non-empty buffer
whenever the default configuration is in effect (on an empty buffer
Python would raise; the embedding returns `' '`, which is in no
delimiter set). -/
def pyLast (l : List Char) : Char := l.getLastD ' '

/-- `buffer[-context_size]`: Python negative indexing, i.e. index
`len(buffer) - context_size`, except that `buffer[-0]` is `buffer[0]`.
Call sites guarantee the index is in range. -/
def charFromEnd (l : List Char) (k : Nat) : Char :=
  l.getD (if k = 0 then 0 else l.length - k) ' '

/-- The strong-delimiter bookmark
(`if char in full_sentence_delims_set: last_delimiter_position = len(buffer) - 1`). -/
def bookmark (cfg : Config) (st1 : GenState) (char : Char) : GenState :=
  { st1 with
    last_delimiter_position :=
      if char ∈ cfg.full_sentence_delimiters then (st1.buffer.length : Int) - 1
      else st1.last_delimiter_position }

/-- The tokenizer-confirmation step of the loop body (from
`sentences = _tokenize_sentences(buffer, ...)` to the end of the
iteration), acting on the state with the throttling counter already
reset; `sentences` is the tokenizer result for `st3.buffer`. -/
def yieldValidated (cfg : Config) (ext : Ext) (st3 : GenState)
    (sentences : List (List Char)) : GenState × List (List Char) :=
  if 1 < sentences.length then
    (if cfg.minimum_sentence_length ≤
        ((sentences.dropLast).map List.length).sum then
      ({ st3 with
          buffer := sentences.getLastD [] ++
            (if st3.buffer.getLast? = some ' ' then [' '] else []),
          last_delimiter_position := -1,
          word_count := 0,
          fragment_count := st3.fragment_count + 1,
          chars_since_last_strong_delim := 0,
          is_first_sentence :=
            if cfg.quick_yield_for_all_sentences = true then true
            else st3.is_first_sentence },
       ((sentences.dropLast).filter
           (fun s => cfg.minimum_sentence_length / 2 ≤ s.length)).map
         (clean_text cfg ext))
    else (st3, []))
  else (st3, [])

/-- The window check of the loop body (the `if len(buffer) >
context_size:` block), acting on the state after the bookmark. -/
def checkBoundary (cfg : Config) (ext : Ext) (st2 : GenState) :
    GenState × List (List Char) :=
  if cfg.strict_punctuation_mode = true ∧
     charFromEnd st2.buffer cfg.context_size ∉ cfg.sentence_fragment_delimiters then
    (st2, [])
  else if cfg.strict_punctuation_mode = false ∧
     charFromEnd st2.buffer cfg.context_size ∈ IGNORED_DELIMITERS then
    (st2, [])
  else if charFromEnd st2.buffer cfg.context_size ∈ cfg.full_sentence_delimiters ∨
          charFromEnd st2.buffer cfg.context_size ∈ [';', ':', ','] then
    (if (cfg.context_size : Int) - 1 < (cfg.min_chars_after_delimiter : Int) then
      (st2, [])
    else if is_likely_sentence_boundary st2.buffer
        (st2.buffer.length - cfg.context_size) = false then
      (st2, [])
    else if st2.tokenization_counter + 1 <
        (if charFromEnd st2.buffer cfg.context_size ∈ [';', ':', ','] then
           max 1 (cfg.tokenization_interval * 6 / 10)
         else cfg.tokenization_interval) then
      ({ st2 with tokenization_counter := st2.tokenization_counter + 1 }, [])
    else
      yieldValidated cfg ext { st2 with tokenization_counter := 0 }
        (tokenize_sentences ext.custom ext.backend cfg.poetic_mode
          cfg.preserve_line_breaks st2.buffer))
  else (st2, [])

/-- The loop-body tail after the first-fragment fast path: the minimum
accumulation gate, the strong-delimiter bookmark, and the window check
(the bookmark does not change the buffer, so the window condition is
equivalently checked on `st1`). -/
def afterFirstFragment (cfg : Config) (ext : Ext) (st1 : GenState)
    (char : Char) : GenState × List (List Char) :=
  if st1.buffer.length ≤ cfg.minimum_sentence_length + cfg.context_size then
    (st1, [])
  else if cfg.context_size < st1.buffer.length then
    checkBoundary cfg ext (bookmark cfg st1 char)
  else (bookmark cfg st1 char, [])

/-- The loop body acting on the state after `stepCounters`: the forced
buffer split, then the first-fragment fast path, then the rest. -/
def processAppended (cfg : Config) (ext : Ext) (st1 : GenState)
    (char : Char) : GenState × List (List Char) :=
  if cfg.max_buffer_size < st1.buffer.length then
    ({ st1 with
        buffer := st1.buffer.drop (cfg.max_buffer_size / 2),
        word_count := st1.word_count - 6,
        tokenization_counter := 0,
        chars_since_last_strong_delim := 0 },
     [clean_text cfg ext (st1.buffer.take (cfg.max_buffer_size / 2))])
  else if st1.is_first_sentence = true ∧
      cfg.minimum_first_fragment_length ≤ st1.buffer.length ∧
      cfg.quick_yield_single_sentence_fragment = true then
    (if pyLast st1.buffer ∈ cfg.sentence_fragment_delimiters ∨
        (pyIsSpace char = true ∧
         cfg.force_first_fragment_after_words ≤ st1.word_count) then
      (if pyLast st1.buffer = ',' ∧ (strip st1.buffer).length < 6 then
        (st1, [])
      else
        ({ st1 with
            buffer := [],
            is_first_sentence :=
              if cfg.quick_yield_every_fragment = true then st1.is_first_sentence
              else false,
            word_count := 0,
            fragment_count := st1.fragment_count + 1,
            tokenization_counter := 0,
            chars_since_last_strong_delim := 0 },
         [clean_text cfg ext st1.buffer]))
    else afterFirstFragment cfg ext st1 char)
  else afterFirstFragment cfg ext st1 char

/-- One iteration of the `async for char in ...` loop body of
`generate_sentences_async`: the new state and the fragments yielded
during the iteration.  (`if char:` of the source is always true for a
single character.) -/
def process_char (cfg : Config) (ext : Ext) (st : GenState) (char : Char) :
    GenState × List (List Char) :=
  if filteredOut cfg st char then (st, [])
  else processAppended cfg ext (stepCounters cfg st char) char

/-- All loop iterations over the character sequence. -/
def run_chars (cfg : Config) (ext : Ext) :
    GenState → List Char → GenState × List (List Char)
  | st, [] => (st, [])
  | st, c :: rest =>
    ((run_chars cfg ext (process_char cfg ext st c).1 rest).1,
     (process_char cfg ext st c).2 ++
       (run_chars cfg ext (process_char cfg ext st c).1 rest).2)

/-- The `sentence_buffer` drain loop of the finalization block. -/
def finLoop (cfg : Config) (ext : Ext) :
    List (List Char) → List Char → List (List Char)
  | [], sb => if sb = [] then [] else [clean_text cfg ext sb]
  | s :: rest, sb =>
    if (sb ++ s).length < cfg.minimum_sentence_length then
      finLoop cfg ext rest (sb ++ s ++ [' '])
    else clean_text cfg ext (sb ++ s) :: finLoop cfg ext rest []

/-- Finalization (`if buffer:` after the loop): tokenize the remainder
once and drain it through `finLoop`. -/
def finalize (cfg : Config) (ext : Ext) (buffer : List Char) :
    List (List Char) :=
  if buffer = [] then []
  else
    finLoop cfg ext
      (tokenize_sentences ext.custom ext.backend cfg.poetic_mode
        cfg.preserve_line_breaks buffer) []

/-- `generate_sentences_async` as a stream transform: the ordered list of
fragments yielded for the given input characters.  The chunk structure of
the input stream is irrelevant because `_generate_characters` flattens
chunks into single characters. -/
def generate_sentences_async (cfg : Config) (ext : Ext) (input : List Char) :
    List (List Char) :=
  ((run_chars (adjustConfig cfg) ext initState input).2) ++
    finalize (adjustConfig cfg) ext
      (run_chars (adjustConfig cfg) ext initState input).1.buffer

/-- A simple well-behaved collaborator: identity custom tokenizer, unused
backend, no emojis. -/
def extId : Ext :=
  { custom := some (fun t => Except.ok [t]),
    backend := fun _ => BackendResult.rawFallback,
    isEmoji := fun _ => false }

/-! ## Claim C3: the forced-split (buffer overflow) path -/

/-- C3: whenever appending a character makes the buffer exceed
`max_buffer_size`, the first `max_buffer_size//2` characters of the
buffer are emitted immediately as a cleaned fragment — no boundary
heuristic and no tokenizer appear in the result — the remaining
characters become the new buffer, `word_count` is decremented by 6
(floored at 0, via truncated `Nat` subtraction), and the tokenization
counter and the chars-since-last-strong-delimiter counter are reset
to 0. -/
theorem forced_split_behavior (cfg : Config) (ext : Ext) (st : GenState)
    (char : Char)
    (hf : ¬ filteredOut cfg st char)
    (hover : cfg.max_buffer_size < (stepCounters cfg st char).buffer.length) :
    process_char cfg ext st char =
      ({ stepCounters cfg st char with
          buffer := (stepCounters cfg st char).buffer.drop
            (cfg.max_buffer_size / 2),
          word_count := (stepCounters cfg st char).word_count - 6,
          tokenization_counter := 0,
          chars_since_last_strong_delim := 0 },
       [clean_text cfg ext
          ((stepCounters cfg st char).buffer.take (cfg.max_buffer_size / 2))]) := by
  rw [process_char, if_neg hf, processAppended, if_pos hover]

/-- C3 witness: with `max_buffer_size = 4`, appending `'e'` to buffer
`"abcd"` emits `"ab"` and keeps `"cde"`. -/
theorem forced_split_behavior_witness :
    (¬ filteredOut { max_buffer_size := 4 : Config }
        { initState with buffer := "abcd".toList } 'e') ∧
    ({ max_buffer_size := 4 : Config }.max_buffer_size <
      (stepCounters { max_buffer_size := 4 : Config }
        { initState with buffer := "abcd".toList } 'e').buffer.length) ∧
    process_char { max_buffer_size := 4 : Config } extId
        { initState with buffer := "abcd".toList } 'e' =
      ({ buffer := "cde".toList, is_first_sentence := true, word_count := 0,
         last_delimiter_position := -1, fragment_count := 0,
         tokenization_counter := 0, chars_since_last_strong_delim := 0 },
       ["ab".toList]) := by
  refine ⟨by decide, by decide, ?_⟩
  rw [forced_split_behavior { max_buffer_size := 4 : Config } extId
    { initState with buffer := "abcd".toList } 'e' (by decide) (by decide)]
  decide

/-! ## Claim C6: the first-fragment fast path -/

/-- C6: in first-fragment mode with `quick_yield_single_sentence_fragment`
enabled and buffer length at least `minimum_first_fragment_length`, if
the buffer's last character is a fragment delimiter, or the current
character is whitespace and `word_count` has reached
`force_first_fragment_after_words`, then: when the buffer's last
character is a comma and the trimmed buffer is shorter than 6 characters
no emission occurs; otherwise the cleaned buffer is emitted, the buffer
is cleared, `word_count`, the tokenization counter and the strong
delimiter distance are reset, `fragment_count` is incremented, and
first-fragment mode is exited unless `quick_yield_every_fragment` is
set.  (`last_delimiter_position`, a variable the source never reads, is
left unchanged by this path.) -/
theorem first_fragment_fast_path (cfg : Config) (ext : Ext) (st : GenState)
    (char : Char)
    (hf : ¬ filteredOut cfg st char)
    (hnov : ¬ cfg.max_buffer_size < (stepCounters cfg st char).buffer.length)
    (hfirst : st.is_first_sentence = true)
    (hquick : cfg.quick_yield_single_sentence_fragment = true)
    (hlen : cfg.minimum_first_fragment_length ≤
      (stepCounters cfg st char).buffer.length)
    (htrig : pyLast (stepCounters cfg st char).buffer ∈
        cfg.sentence_fragment_delimiters ∨
      (pyIsSpace char = true ∧ cfg.force_first_fragment_after_words ≤
        (stepCounters cfg st char).word_count)) :
    (pyLast (stepCounters cfg st char).buffer = ',' ∧
        (strip (stepCounters cfg st char).buffer).length < 6 →
      process_char cfg ext st char = (stepCounters cfg st char, [])) ∧
    (¬ (pyLast (stepCounters cfg st char).buffer = ',' ∧
        (strip (stepCounters cfg st char).buffer).length < 6) →
      process_char cfg ext st char =
        ({ stepCounters cfg st char with
            buffer := [],
            is_first_sentence :=
              if cfg.quick_yield_every_fragment = true then
                (stepCounters cfg st char).is_first_sentence
              else false,
            word_count := 0,
            fragment_count := (stepCounters cfg st char).fragment_count + 1,
            tokenization_counter := 0,
            chars_since_last_strong_delim := 0 },
         [clean_text cfg ext (stepCounters cfg st char).buffer])) := by
  have hfirst1 : (stepCounters cfg st char).is_first_sentence = true := hfirst
  constructor
  · intro hcomma
    rw [process_char, if_neg hf, processAppended, if_neg hnov,
      if_pos ⟨hfirst1, hlen, hquick⟩, if_pos htrig, if_pos hcomma]
  · intro hcomma
    rw [process_char, if_neg hf, processAppended, if_neg hnov,
      if_pos ⟨hfirst1, hlen, hquick⟩, if_pos htrig, if_neg hcomma]

/-- C6 witness: under the default configuration, `"Hello the"` plus `'!'`
emits the first fragment `"Hello the!"` and exits first-fragment mode;
with `minimum_first_fragment_length = 2`, `"abcd"` plus `','` is
suppressed (trimmed buffer shorter than 6 ending in a comma). -/
theorem first_fragment_fast_path_witness :
    process_char ({} : Config) extId
        { initState with buffer := "Hello the".toList, word_count := 1 } '!' =
      ({ buffer := [], is_first_sentence := false, word_count := 0,
         last_delimiter_position := -1, fragment_count := 1,
         tokenization_counter := 0, chars_since_last_strong_delim := 0 },
       ["Hello the!".toList]) ∧
    process_char { minimum_first_fragment_length := 2 : Config } extId
        { initState with buffer := "abcd".toList } ',' =
      ({ initState with
          buffer := "abcd,".toList,
          word_count := 1,
          chars_since_last_strong_delim := 1 }, []) := by
  constructor
  · rw [((first_fragment_fast_path ({} : Config) extId
      { initState with buffer := "Hello the".toList, word_count := 1 } '!'
      (by decide) (by decide) (by decide) (by decide) (by decide)
      (Or.inl (by decide))).2 (by decide))]
    decide
  · rw [((first_fragment_fast_path
      { minimum_first_fragment_length := 2 : Config } extId
      { initState with buffer := "abcd".toList } ','
      (by decide) (by decide) (by decide) (by decide) (by decide)
      (Or.inl (by decide))).1 (by decide))]
    decide

/-! ## The lookback-window guard (shared lemmas for C10, C2, C1) -/

theorem checkBoundary_guard_no_yield (cfg : Config) (ext : Ext) (st2 : GenState)
    (hguard : (cfg.context_size : Int) - 1 < (cfg.min_chars_after_delimiter : Int)) :
    (checkBoundary cfg ext st2).1.buffer = st2.buffer ∧
    (checkBoundary cfg ext st2).2 = [] := by
  rw [checkBoundary]
  split_ifs <;> first | exact ⟨rfl, rfl⟩ | omega

theorem afterFirstFragment_guard (cfg : Config) (ext : Ext) (st1 : GenState)
    (char : Char)
    (hguard : (cfg.context_size : Int) - 1 < (cfg.min_chars_after_delimiter : Int)) :
    (afterFirstFragment cfg ext st1 char).1.buffer = st1.buffer ∧
    (afterFirstFragment cfg ext st1 char).2 = [] := by
  rw [afterFirstFragment]
  split_ifs
  · exact ⟨rfl, rfl⟩
  · exact checkBoundary_guard_no_yield cfg ext _ hguard
  · exact ⟨rfl, rfl⟩

theorem checkBoundary_ext_independent (cfg : Config)
    (hguard : (cfg.context_size : Int) - 1 < (cfg.min_chars_after_delimiter : Int))
    (c1 c2 : Option (List Char → Except Unit (List (List Char))))
    (b1 b2 : List Char → BackendResult) (em : Char → Bool) (st2 : GenState) :
    checkBoundary cfg ⟨c1, b1, em⟩ st2 = checkBoundary cfg ⟨c2, b2, em⟩ st2 := by
  rw [checkBoundary, checkBoundary]
  split_ifs <;> first | rfl | omega

theorem process_char_ext_independent (cfg : Config)
    (hguard : (cfg.context_size : Int) - 1 < (cfg.min_chars_after_delimiter : Int))
    (c1 c2 : Option (List Char → Except Unit (List (List Char))))
    (b1 b2 : List Char → BackendResult) (em : Char → Bool)
    (st : GenState) (char : Char) :
    process_char cfg ⟨c1, b1, em⟩ st char = process_char cfg ⟨c2, b2, em⟩ st char := by
  by_cases hf : filteredOut cfg st char
  · rw [process_char, process_char, if_pos hf, if_pos hf]
  · rw [process_char, process_char, if_neg hf, if_neg hf,
      processAppended, processAppended]
    split_ifs <;> try rfl
    all_goals rw [afterFirstFragment, afterFirstFragment]
    all_goals split_ifs <;> try rfl
    all_goals exact checkBoundary_ext_independent cfg hguard c1 c2 b1 b2 em _

/-! ## Claim C10: with the default thresholds the mid-stream tokenizer
branch is unreachable -/

/-- C10: whenever `context_size - 1 < min_chars_after_delimiter` — as with
the defaults `context_size = 15`, `min_chars_after_delimiter = 25`, where
the guard compares the constant `14` against `25` — the mid-stream
tokenizer-confirmation branch is never executed: the whole character
processing loop is independent of the tokenizer backend and custom
callback (the tokenizer can only be invoked during finalization), and,
whenever no forced split occurs and the generator is not in
first-fragment mode, an iteration emits nothing at all. -/
theorem lookback_guard_no_midstream_tokenizer (cfg : Config)
    (hguard : (cfg.context_size : Int) - 1 < (cfg.min_chars_after_delimiter : Int)) :
    (∀ (c1 c2 : Option (List Char → Except Unit (List (List Char))))
       (b1 b2 : List Char → BackendResult) (em : Char → Bool)
       (st : GenState) (input : List Char),
       run_chars cfg ⟨c1, b1, em⟩ st input = run_chars cfg ⟨c2, b2, em⟩ st input) ∧
    (∀ (ext : Ext) (st : GenState) (char : Char),
       st.is_first_sentence = false →
       ¬ cfg.max_buffer_size < (stepCounters cfg st char).buffer.length →
       (process_char cfg ext st char).2 = []) := by
  constructor
  · intro c1 c2 b1 b2 em st input
    induction input generalizing st with
    | nil => rfl
    | cons c rest ih =>
      rw [run_chars, run_chars,
        process_char_ext_independent cfg hguard c1 c2 b1 b2 em st c, ih]
  · intro ext st char hfirst hnov
    by_cases hf : filteredOut cfg st char
    · rw [process_char, if_pos hf]
    · have hfast : ¬ ((stepCounters cfg st char).is_first_sentence = true ∧
          cfg.minimum_first_fragment_length ≤
            (stepCounters cfg st char).buffer.length ∧
          cfg.quick_yield_single_sentence_fragment = true) := by
        intro hc
        have h1 : st.is_first_sentence = true := hc.1
        rw [hfirst] at h1
        cases h1
      rw [process_char, if_neg hf, processAppended, if_neg hnov, if_neg hfast]
      exact (afterFirstFragment_guard cfg ext _ char hguard).2

/-- C10 witness: under the default configuration, a stream processed with
the identity custom tokenizer and a stream processed with no tokenizer at
all (raising backend) yield identical mid-stream behavior, and a
non-first-fragment iteration without overflow emits nothing. -/
theorem lookback_guard_no_midstream_tokenizer_witness :
    ((({} : Config).context_size : Int) - 1 <
        (({} : Config).min_chars_after_delimiter : Int)) ∧
    run_chars ({} : Config)
        ⟨some (fun t => Except.ok [t]), fun _ => BackendResult.rawFallback,
         fun _ => false⟩
        initState "Hello world. This is a test. And more.".toList =
      run_chars ({} : Config)
        ⟨none, fun _ => BackendResult.raised, fun _ => false⟩
        initState "Hello world. This is a test. And more.".toList ∧
    (process_char ({} : Config) extId
        { initState with buffer := "Hello world. This is a test".toList,
                         is_first_sentence := false } '.').2 = [] := by
  refine ⟨by decide, ?_, ?_⟩
  · exact (lookback_guard_no_midstream_tokenizer ({} : Config) (by decide)).1
      (some (fun t => Except.ok [t])) none
      (fun _ => BackendResult.rawFallback) (fun _ => BackendResult.raised)
      (fun _ => false) initState _
  · exact (lookback_guard_no_midstream_tokenizer ({} : Config) (by decide)).2
      extId _ '.' rfl (by decide)

/-! ## Claim C2: the buffer length bound -/

theorem stepCounters_buffer_le (cfg : Config) (st : GenState) (char : Char) :
    (stepCounters cfg st char).buffer.length ≤ st.buffer.length + 1 := by
  show (lstrip (st.buffer ++ [char])).length ≤ st.buffer.length + 1
  have h := length_dropWhile_le pyIsSpace (st.buffer ++ [char])
  simpa using h

/-- C2 (amended): provided `max_buffer_size ≥ 2` and `context_size - 1 <
min_chars_after_delimiter` (so the mid-stream tokenizer-confirmation
branch, which replaces the buffer by the tokenizer's last sentence, is
unreachable — both hold under the default configuration), the buffer
length measured at the end of each loop iteration never exceeds
`max_buffer_size`: the bound is preserved by every iteration, and holds
after processing any input from the initial state (every prefix of a
stream being itself an input).  Without these provisos the claim fails,
e.g. with `max_buffer_size = 0`. -/
theorem buffer_length_bounded (cfg : Config)
    (hmax : 2 ≤ cfg.max_buffer_size)
    (hguard : (cfg.context_size : Int) - 1 < (cfg.min_chars_after_delimiter : Int)) :
    (∀ (ext : Ext) (st : GenState) (char : Char),
       st.buffer.length ≤ cfg.max_buffer_size →
       (process_char cfg ext st char).1.buffer.length ≤ cfg.max_buffer_size) ∧
    (∀ (ext : Ext) (input : List Char),
       (run_chars cfg ext initState input).1.buffer.length ≤ cfg.max_buffer_size) := by
  have step : ∀ (ext : Ext) (st : GenState) (char : Char),
      st.buffer.length ≤ cfg.max_buffer_size →
      (process_char cfg ext st char).1.buffer.length ≤ cfg.max_buffer_size := by
    intro ext st char hlen
    by_cases hf : filteredOut cfg st char
    · rw [process_char, if_pos hf]
      exact hlen
    · rw [process_char, if_neg hf]
      have hb := stepCounters_buffer_le cfg st char
      rw [processAppended]
      by_cases hov : cfg.max_buffer_size <
          (stepCounters cfg st char).buffer.length
      · rw [if_pos hov]
        simp only [List.length_drop]
        omega
      · rw [if_neg hov]
        have hle : (stepCounters cfg st char).buffer.length ≤
            cfg.max_buffer_size := by omega
        split_ifs <;>
          first
            | exact hle
            | (rw [(afterFirstFragment_guard cfg ext
                (stepCounters cfg st char) char hguard).1]; exact hle)
            | simp
  refine ⟨step, ?_⟩
  intro ext input
  have run : ∀ (input : List Char) (st : GenState),
      st.buffer.length ≤ cfg.max_buffer_size →
      (run_chars cfg ext st input).1.buffer.length ≤ cfg.max_buffer_size := by
    intro input
    induction input with
    | nil => intro st h; exact h
    | cons c rest ih =>
      intro st h
      rw [run_chars]
      exact ih _ (step ext st c h)
  exact run input initState (by simp [initState])

/-- C2 witness: under the default configuration (`max_buffer_size = 700 ≥
2`, guard `14 < 25`), the buffer stays within the bound after processing a
concrete stream. -/
theorem buffer_length_bounded_witness :
    (2 ≤ ({} : Config).max_buffer_size) ∧
    (run_chars ({} : Config) extId initState
        "A very long sentence without any delimiter at all".toList).1.buffer.length ≤
      ({} : Config).max_buffer_size :=
  ⟨by decide,
   (buffer_length_bounded ({} : Config) (by decide) (by decide)).2 extId
     "A very long sentence without any delimiter at all".toList⟩

/-- C2 counterexample: the claim as stated quantifies over every
configuration, but with `max_buffer_size = 0` the forced split emits the
empty prefix `buffer[:0]` and keeps the whole buffer, so the buffer
length after the first character already exceeds `max_buffer_size`. -/
theorem buffer_length_bounded_counterexample :
    ¬ ((process_char
          { max_buffer_size := 0,
            quick_yield_single_sentence_fragment := false,
            filter_first_non_alnum_characters := false : Config }
          extId initState 'a').1.buffer.length ≤
        ({ max_buffer_size := 0,
           quick_yield_single_sentence_fragment := false,
           filter_first_non_alnum_characters := false : Config }).max_buffer_size) := by
  decide

/-! ## Claim C9: length of validated mid-stream fragments -/

theorem checkBoundary_out_from_tokenizer (cfg : Config) (ext : Ext)
    (st2 : GenState) :
    ∀ out ∈ (checkBoundary cfg ext st2).2,
      ∃ s ∈ (tokenize_sentences ext.custom ext.backend cfg.poetic_mode
               cfg.preserve_line_breaks st2.buffer).dropLast,
        cfg.minimum_sentence_length / 2 ≤ s.length ∧
        out = clean_text cfg ext s := by
  intro out hout
  rw [checkBoundary] at hout
  split_ifs at hout <;> try (cases hout)
  all_goals rw [yieldValidated] at hout
  all_goals (split_ifs at hout <;> try (cases hout))
  all_goals
    simp only [List.mem_map, List.mem_filter] at hout
  all_goals
    obtain ⟨s, ⟨hs1, hs2⟩, hs3⟩ := hout
  all_goals
    exact ⟨s, hs1, by simpa using hs2, hs3.symm⟩

/-- C9 (amended): when `strict_punctuation_mode` is enabled, every
fragment emitted by an iteration that is not in first-fragment mode and
does not force-split is the cleaned form of a tokenizer-returned
(non-final) sentence whose pre-cleaning length is at least
`minimum_sentence_length // 2`.  The original claim fails for
finalization: the final drain emits whatever remains even when
shorter than `minimum_sentence_length // 2`, and the first-fragment fast
path is governed by `minimum_first_fragment_length` instead. -/
theorem validated_emission_min_length (cfg : Config) (ext : Ext)
    (st : GenState) (char : Char)
    (hstrict : cfg.strict_punctuation_mode = true)
    (hnotfirst : st.is_first_sentence = false)
    (hnov : ¬ cfg.max_buffer_size < (stepCounters cfg st char).buffer.length) :
    ∀ out ∈ (process_char cfg ext st char).2,
      ∃ s ∈ (tokenize_sentences ext.custom ext.backend cfg.poetic_mode
               cfg.preserve_line_breaks
               (stepCounters cfg st char).buffer).dropLast,
        cfg.minimum_sentence_length / 2 ≤ s.length ∧
        out = clean_text cfg ext s := by
  intro out hout
  by_cases hf : filteredOut cfg st char
  · rw [process_char, if_pos hf] at hout
    cases hout
  · have hfast : ¬ ((stepCounters cfg st char).is_first_sentence = true ∧
        cfg.minimum_first_fragment_length ≤
          (stepCounters cfg st char).buffer.length ∧
        cfg.quick_yield_single_sentence_fragment = true) := by
      intro hc
      have h1 : st.is_first_sentence = true := hc.1
      rw [hnotfirst] at h1
      cases h1
    rw [process_char, if_neg hf, processAppended, if_neg hnov, if_neg hfast,
      afterFirstFragment] at hout
    split_ifs at hout <;> try (cases hout)
    exact checkBoundary_out_from_tokenizer cfg ext
      (bookmark cfg (stepCounters cfg st char) char) out hout

/-- C9 witness: with `context_size = 3`, `minimum_sentence_length = 30`,
`tokenization_interval = 1`, `min_chars_after_delimiter = 2`, a period in
the lookback window triggers tokenizer confirmation; the emitted fragment
`"abcdefghijABCDEFGHIJ"` is a tokenizer sentence of length 20 ≥ 15. -/
theorem validated_emission_min_length_witness :
    ({ context_size := 3, minimum_sentence_length := 30,
       tokenization_interval := 1, min_chars_after_delimiter := 2,
       quick_yield_single_sentence_fragment := false :
       Config }).strict_punctuation_mode = true ∧
    (∃ s ∈ (tokenize_sentences
        (some (fun t => Except.ok
          (if t = "abcdefghijABCDEFGHIJKLMNOPQRSTuvw.xy".toList then
            ["abcdefghijABCDEFGHIJ".toList, "KLMNOPQRST".toList,
             "uvw.xy".toList]
          else [t])))
        (fun _ => BackendResult.raised) false false
        "abcdefghijABCDEFGHIJKLMNOPQRSTuvw.xy".toList).dropLast,
      15 ≤ s.length ∧
      "abcdefghijABCDEFGHIJ".toList =
        clean_text
          { context_size := 3, minimum_sentence_length := 30,
            tokenization_interval := 1, min_chars_after_delimiter := 2,
            quick_yield_single_sentence_fragment := false : Config }
          { custom := some (fun t => Except.ok
              (if t = "abcdefghijABCDEFGHIJKLMNOPQRSTuvw.xy".toList then
                ["abcdefghijABCDEFGHIJ".toList, "KLMNOPQRST".toList,
                 "uvw.xy".toList]
              else [t])),
            backend := fun _ => BackendResult.raised,
            isEmoji := fun _ => false } s) := by
  refine ⟨rfl, ?_⟩
  have h := validated_emission_min_length
    { context_size := 3, minimum_sentence_length := 30,
      tokenization_interval := 1, min_chars_after_delimiter := 2,
      quick_yield_single_sentence_fragment := false : Config }
    { custom := some (fun t => Except.ok
        (if t = "abcdefghijABCDEFGHIJKLMNOPQRSTuvw.xy".toList then
          ["abcdefghijABCDEFGHIJ".toList, "KLMNOPQRST".toList,
           "uvw.xy".toList]
        else [t])),
      backend := fun _ => BackendResult.raised,
      isEmoji := fun _ => false }
    { buffer := "abcdefghijABCDEFGHIJKLMNOPQRSTuvw.x".toList,
      is_first_sentence := false, word_count := 0,
      last_delimiter_position := -1, fragment_count := 0,
      tokenization_counter := 0, chars_since_last_strong_delim := 0 }
    'y' rfl rfl (by decide) "abcdefghijABCDEFGHIJ".toList (by decide)
  exact h

/-- C9 counterexample: under the default configuration (strict mode on)
with the identity tokenizer, the input `"Hello"` makes finalization emit
the fragment `"Hello"` of length 5, which is smaller than
`minimum_sentence_length // 2 = 6`. -/
theorem validated_emission_min_length_counterexample :
    generate_sentences_async ({} : Config) extId "Hello".toList =
      ["Hello".toList] ∧
    ("Hello".toList).length < ({} : Config).minimum_sentence_length / 2 := by
  constructor
  · rfl
  · decide

/-! ## Claim C1: character conservation -/

/-- The non-whitespace characters of a string, in order (what remains of
a string when whitespace normalization is ignored). -/
def noWS (l : List Char) : List Char := l.filter (fun c => !(pyIsSpace c))

theorem noWS_append (a b : List Char) : noWS (a ++ b) = noWS a ++ noWS b := by
  simp [noWS]

theorem noWS_dropWhile_space (l : List Char) :
    noWS (l.dropWhile pyIsSpace) = noWS l := by
  induction l with
  | nil => rfl
  | cons c rest ih =>
    by_cases h : pyIsSpace c = true
    · simp only [List.dropWhile, h, ih]
      simp [noWS, h]
    · have h' : pyIsSpace c = false := by
        revert h
        cases pyIsSpace c <;> simp
      simp [List.dropWhile, h']

theorem noWS_lstrip (l : List Char) : noWS (lstrip l) = noWS l :=
  noWS_dropWhile_space l

theorem noWS_reverse (l : List Char) : noWS l.reverse = (noWS l).reverse := by
  simp [noWS, List.filter_reverse]

theorem noWS_rstrip (l : List Char) : noWS (rstrip l) = noWS l := by
  rw [rstrip, noWS_reverse, noWS_dropWhile_space, noWS_reverse,
    List.reverse_reverse]

theorem noWS_strip (l : List Char) : noWS (strip l) = noWS l := by
  rw [strip, noWS_lstrip, noWS_rstrip]

theorem flatten_singleton (x : List Char) :
    ([x] : List (List Char)).flatten = x := by simp

/-- A character that survives output normalization: not whitespace, and
not an emoji when `cleanup_text_emojis` is enabled.  Comparing texts
after filtering with `keepChar` is comparison "ignoring whitespace
normalization" and "modulo emoji removal". -/
def keepChar (cfg : Config) (ext : Ext) (c : Char) : Bool :=
  !(pyIsSpace c) && (!cfg.cleanup_text_emojis || !(ext.isEmoji c))

/-- A text up to whitespace normalization and emoji removal. -/
def normalizeOut (cfg : Config) (ext : Ext) (l : List Char) : List Char :=
  l.filter (keepChar cfg ext)

/-- The input characters that survive the leading non-alphanumeric
filter during a run of the generator from state `st` (the filter can
drop a character only when the buffer is empty at its arrival). -/
def keptChars (cfg : Config) (ext : Ext) : GenState → List Char → List Char
  | _, [] => []
  | st, c :: rest =>
    if filteredOut cfg st c then
      keptChars cfg ext (process_char cfg ext st c).1 rest
    else c :: keptChars cfg ext (process_char cfg ext st c).1 rest

/-- The input characters the leading non-alphanumeric filter drops
during a run of the generator from state `st`. -/
def droppedChars (cfg : Config) (ext : Ext) : GenState → List Char → List Char
  | _, [] => []
  | st, c :: rest =>
    if filteredOut cfg st c then
      c :: droppedChars cfg ext (process_char cfg ext st c).1 rest
    else droppedChars cfg ext (process_char cfg ext st c).1 rest

theorem keepChar_space (cfg : Config) (ext : Ext) (c : Char)
    (h : pyIsSpace c = true) : keepChar cfg ext c = false := by
  simp [keepChar, h]

theorem norm_append (cfg : Config) (ext : Ext) (a b : List Char) :
    normalizeOut cfg ext (a ++ b) =
      normalizeOut cfg ext a ++ normalizeOut cfg ext b := by
  simp [normalizeOut]

theorem norm_dropWhile_space (cfg : Config) (ext : Ext) (l : List Char) :
    normalizeOut cfg ext (l.dropWhile pyIsSpace) = normalizeOut cfg ext l := by
  induction l with
  | nil => rfl
  | cons c rest ih =>
    by_cases h : pyIsSpace c = true
    · simp only [List.dropWhile, h, ih]
      simp [normalizeOut, keepChar_space cfg ext c h]
    · have h' : pyIsSpace c = false := by
        revert h
        cases pyIsSpace c <;> simp
      simp [List.dropWhile, h']

theorem norm_reverse (cfg : Config) (ext : Ext) (l : List Char) :
    normalizeOut cfg ext l.reverse = (normalizeOut cfg ext l).reverse := by
  simp [normalizeOut, List.filter_reverse]

theorem norm_lstrip (cfg : Config) (ext : Ext) (l : List Char) :
    normalizeOut cfg ext (lstrip l) = normalizeOut cfg ext l :=
  norm_dropWhile_space cfg ext l

theorem norm_rstrip (cfg : Config) (ext : Ext) (l : List Char) :
    normalizeOut cfg ext (rstrip l) = normalizeOut cfg ext l := by
  rw [rstrip, norm_reverse, norm_dropWhile_space, norm_reverse,
    List.reverse_reverse]

theorem norm_strip (cfg : Config) (ext : Ext) (l : List Char) :
    normalizeOut cfg ext (strip l) = normalizeOut cfg ext l := by
  rw [strip, norm_lstrip, norm_rstrip]

theorem norm_filter_emoji (cfg : Config) (ext : Ext)
    (h : cfg.cleanup_text_emojis = true) (t : List Char) :
    normalizeOut cfg ext (t.filter (fun c => !(ext.isEmoji c))) =
      normalizeOut cfg ext t := by
  rw [normalizeOut, normalizeOut, List.filter_filter]
  have hfun : (fun a => keepChar cfg ext a && !(ext.isEmoji a)) =
      keepChar cfg ext := by
    funext a
    simp only [keepChar, h]
    cases ext.isEmoji a <;> cases pyIsSpace a <;> simp
  rw [hfun]

theorem norm_clean (cfg : Config) (ext : Ext) (t : List Char) :
    normalizeOut cfg ext (clean_text cfg ext t) = normalizeOut cfg ext t := by
  rw [clean_text]
  by_cases h : cfg.cleanup_text_emojis = true
  · rw [if_pos h, norm_strip, norm_filter_emoji cfg ext h]
  · rw [if_neg h, norm_strip]

theorem normalizeOut_eq_filter_noWS (cfg : Config) (ext : Ext) (l : List Char) :
    normalizeOut cfg ext l =
      (noWS l).filter (fun c => !cfg.cleanup_text_emojis || !(ext.isEmoji c)) := by
  rw [normalizeOut, noWS, List.filter_filter]
  have hfun : (fun a => (!cfg.cleanup_text_emojis || !(ext.isEmoji a)) &&
      !(pyIsSpace a)) = keepChar cfg ext := by
    funext a
    simp [keepChar, Bool.and_comm]
  rw [hfun]

theorem norm_of_noWS_eq (cfg : Config) (ext : Ext) {a b : List Char}
    (h : noWS a = noWS b) :
    normalizeOut cfg ext a = normalizeOut cfg ext b := by
  rw [normalizeOut_eq_filter_noWS, normalizeOut_eq_filter_noWS, h]

theorem process_char_conserves (cfg : Config) (ext : Ext) (st : GenState)
    (char : Char)
    (hguard : (cfg.context_size : Int) - 1 < (cfg.min_chars_after_delimiter : Int)) :
    normalizeOut cfg ext ((process_char cfg ext st char).2.flatten ++
      (process_char cfg ext st char).1.buffer) =
    normalizeOut cfg ext (st.buffer ++
      (if filteredOut cfg st char then [] else [char])) := by
  by_cases hf : filteredOut cfg st char
  · rw [process_char, if_pos hf, if_pos hf]
    simp
  · rw [if_neg hf]
    have hb : normalizeOut cfg ext (stepCounters cfg st char).buffer =
        normalizeOut cfg ext (st.buffer ++ [char]) :=
      norm_lstrip cfg ext (st.buffer ++ [char])
    have hafter : normalizeOut cfg ext
        ((afterFirstFragment cfg ext (stepCounters cfg st char) char).2.flatten ++
          (afterFirstFragment cfg ext (stepCounters cfg st char) char).1.buffer) =
        normalizeOut cfg ext (st.buffer ++ [char]) := by
      have hg := afterFirstFragment_guard cfg ext (stepCounters cfg st char)
        char hguard
      rw [hg.1, hg.2]
      simp only [List.flatten_nil, List.nil_append]
      exact hb
    rw [process_char, if_neg hf, processAppended]
    by_cases hov : cfg.max_buffer_size < (stepCounters cfg st char).buffer.length
    · rw [if_pos hov]
      show normalizeOut cfg ext
        (([clean_text cfg ext ((stepCounters cfg st char).buffer.take
            (cfg.max_buffer_size / 2))]).flatten ++
          (stepCounters cfg st char).buffer.drop (cfg.max_buffer_size / 2)) =
        normalizeOut cfg ext (st.buffer ++ [char])
      rw [flatten_singleton, norm_append, norm_clean, ← norm_append,
        List.take_append_drop]
      exact hb
    · rw [if_neg hov]
      by_cases hfast : ((stepCounters cfg st char).is_first_sentence = true ∧
          cfg.minimum_first_fragment_length ≤
            (stepCounters cfg st char).buffer.length ∧
          cfg.quick_yield_single_sentence_fragment = true)
      · rw [if_pos hfast]
        by_cases htrig : (pyLast (stepCounters cfg st char).buffer ∈
              cfg.sentence_fragment_delimiters ∨
            (pyIsSpace char = true ∧ cfg.force_first_fragment_after_words ≤
              (stepCounters cfg st char).word_count))
        · rw [if_pos htrig]
          by_cases hcomma : (pyLast (stepCounters cfg st char).buffer = ',' ∧
              (strip (stepCounters cfg st char).buffer).length < 6)
          · rw [if_pos hcomma]
            show normalizeOut cfg ext (([] : List (List Char)).flatten ++
              (stepCounters cfg st char).buffer) =
              normalizeOut cfg ext (st.buffer ++ [char])
            simp only [List.flatten_nil, List.nil_append]
            exact hb
          · rw [if_neg hcomma]
            show normalizeOut cfg ext (([clean_text cfg ext
                (stepCounters cfg st char).buffer]).flatten ++ []) =
              normalizeOut cfg ext (st.buffer ++ [char])
            rw [flatten_singleton, List.append_nil, norm_clean]
            exact hb
        · rw [if_neg htrig]
          exact hafter
      · rw [if_neg hfast]
        exact hafter

theorem run_chars_conserves (cfg : Config) (ext : Ext)
    (hguard : (cfg.context_size : Int) - 1 < (cfg.min_chars_after_delimiter : Int)) :
    ∀ (input : List Char) (st : GenState),
      normalizeOut cfg ext ((run_chars cfg ext st input).2.flatten ++
        (run_chars cfg ext st input).1.buffer) =
      normalizeOut cfg ext (st.buffer ++ keptChars cfg ext st input) := by
  intro input
  induction input with
  | nil =>
    intro st
    rw [run_chars, keptChars]
    simp
  | cons c rest ih =>
    intro st
    have hstep := process_char_conserves cfg ext st c hguard
    rw [run_chars, keptChars]
    by_cases hf : filteredOut cfg st c
    · rw [if_pos hf] at hstep ⊢
      rw [List.append_nil] at hstep
      show normalizeOut cfg ext (((process_char cfg ext st c).2 ++
          (run_chars cfg ext (process_char cfg ext st c).1 rest).2).flatten ++
        (run_chars cfg ext (process_char cfg ext st c).1 rest).1.buffer) =
        normalizeOut cfg ext (st.buffer ++
          keptChars cfg ext (process_char cfg ext st c).1 rest)
      rw [List.flatten_append, List.append_assoc, norm_append,
        ih (process_char cfg ext st c).1, ← norm_append,
        ← List.append_assoc, norm_append, hstep, ← norm_append]
    · rw [if_neg hf] at hstep ⊢
      show normalizeOut cfg ext (((process_char cfg ext st c).2 ++
          (run_chars cfg ext (process_char cfg ext st c).1 rest).2).flatten ++
        (run_chars cfg ext (process_char cfg ext st c).1 rest).1.buffer) =
        normalizeOut cfg ext (st.buffer ++
          (c :: keptChars cfg ext (process_char cfg ext st c).1 rest))
      rw [List.flatten_append, List.append_assoc, norm_append,
        ih (process_char cfg ext st c).1, ← norm_append,
        ← List.append_assoc, norm_append, hstep, ← norm_append,
        List.append_assoc, List.singleton_append]

theorem finLoop_conserves (cfg : Config) (ext : Ext) :
    ∀ (ss : List (List Char)) (sb : List Char),
      normalizeOut cfg ext ((finLoop cfg ext ss sb).flatten) =
        normalizeOut cfg ext (sb ++ ss.flatten) := by
  intro ss
  induction ss with
  | nil =>
    intro sb
    rw [finLoop]
    by_cases h : sb = []
    · rw [if_pos h, h]
      rfl
    · rw [if_neg h]
      rw [flatten_singleton, norm_clean]
      simp
  | cons s rest ih =>
    intro sb
    rw [finLoop]
    by_cases h : (sb ++ s).length < cfg.minimum_sentence_length
    · rw [if_pos h, ih]
      simp only [List.flatten_cons, norm_append, List.append_assoc,
        show normalizeOut cfg ext [' '] = [] from by
          simp [normalizeOut, keepChar_space cfg ext ' ' rfl],
        List.append_nil, List.nil_append]
    · rw [if_neg h]
      show normalizeOut cfg ext ((clean_text cfg ext (sb ++ s) ::
        finLoop cfg ext rest []).flatten) =
        normalizeOut cfg ext (sb ++ (s :: rest).flatten)
      rw [List.flatten_cons, norm_append, ih [], norm_clean]
      simp [norm_append, List.append_assoc]

theorem finalize_conserves (cfg : Config) (ext : Ext)
    (htok : ∀ t : List Char,
      noWS ((tokenize_sentences ext.custom ext.backend cfg.poetic_mode
        cfg.preserve_line_breaks t).flatten) = noWS t)
    (buffer : List Char) :
    normalizeOut cfg ext ((finalize cfg ext buffer).flatten) =
      normalizeOut cfg ext buffer := by
  rw [finalize]
  by_cases h : buffer = []
  · rw [if_pos h, h]
    rfl
  · rw [if_neg h, finLoop_conserves cfg ext _ []]
    simpa using norm_of_noWS_eq cfg ext (htok buffer)

theorem droppedChars_are_filterable (cfg : Config) (ext : Ext) :
    ∀ (input : List Char) (st : GenState),
      ∀ c ∈ droppedChars cfg ext st input,
        pyIsAlnum c = false ∧ c ∉ ['(', '[', '«', '\x22', '\x27'] := by
  intro input
  induction input with
  | nil =>
    intro st c hc
    cases hc
  | cons a rest ih =>
    intro st c hc
    rw [droppedChars] at hc
    by_cases hf : filteredOut cfg st a
    · rw [if_pos hf] at hc
      rcases List.mem_cons.mp hc with h | h
      · subst h
        exact ⟨hf.2.2.1, hf.2.2.2⟩
      · exact ih _ c h
    · rw [if_neg hf] at hc
      exact ih _ c hc

theorem kept_dropped_partition (cfg : Config) (ext : Ext) :
    ∀ (input : List Char) (st : GenState),
      (keptChars cfg ext st input).length +
        (droppedChars cfg ext st input).length = input.length := by
  intro input
  induction input with
  | nil =>
    intro st
    rfl
  | cons a rest ih =>
    intro st
    rw [keptChars, droppedChars]
    by_cases hf : filteredOut cfg st a
    · rw [if_pos hf, if_pos hf]
      simp only [List.length_cons]
      rw [← ih (process_char cfg ext st a).1]
      omega
    · rw [if_neg hf, if_neg hf]
      simp only [List.length_cons]
      rw [← ih (process_char cfg ext st a).1]
      omega

theorem keptChars_of_no_filter (cfg : Config) (ext : Ext)
    (h : cfg.filter_first_non_alnum_characters = false) :
    ∀ (input : List Char) (st : GenState), keptChars cfg ext st input = input := by
  intro input
  induction input with
  | nil =>
    intro st
    rfl
  | cons a rest ih =>
    intro st
    rw [keptChars, if_neg]
    · rw [ih (process_char cfg ext st a).1]
    · intro hc
      have h2 := hc.2.1
      rw [h] at h2
      exact Bool.noConfusion h2

/-- C1 (amended): when the mid-stream tokenizer-confirmation branch is
unreachable (`context_size - 1 < min_chars_after_delimiter`, as under
the default thresholds) and the tokenizer used during finalization
preserves its input modulo whitespace, the concatenation of all
fragments emitted by `generate_sentences_async` reconstructs the input —
ignoring whitespace normalization and modulo emoji removal — up to
exactly the characters removed by the leading non-alphanumeric filter:
the output normalizes to the kept characters of the input, every dropped
character is non-alphanumeric and not an allowed opening character, kept
and dropped characters partition the input, and nothing is dropped when
the filter is disabled — so no characters outside the filtered class are
lost, fabricated, or duplicated.  The original universally quantified
claim is false: in the mid-stream tokenizer-confirmation branch a
tokenizer sentence shorter than `minimum_sentence_length // 2` is
removed from the buffer without being emitted, losing its characters. -/
theorem stream_conservation (cfg : Config) (ext : Ext) (input : List Char)
    (hguard : (cfg.context_size : Int) - 1 < (cfg.min_chars_after_delimiter : Int))
    (htok : ∀ t : List Char,
      noWS ((tokenize_sentences ext.custom ext.backend cfg.poetic_mode
        cfg.preserve_line_breaks t).flatten) = noWS t) :
    normalizeOut cfg ext ((generate_sentences_async cfg ext input).flatten) =
      normalizeOut cfg ext (keptChars (adjustConfig cfg) ext initState input) ∧
    (∀ c ∈ droppedChars (adjustConfig cfg) ext initState input,
       pyIsAlnum c = false ∧ c ∉ ['(', '[', '«', '\x22', '\x27']) ∧
    (keptChars (adjustConfig cfg) ext initState input).length +
        (droppedChars (adjustConfig cfg) ext initState input).length =
      input.length ∧
    (cfg.filter_first_non_alnum_characters = false →
      keptChars (adjustConfig cfg) ext initState input = input) := by
  refine ⟨?_, droppedChars_are_filterable (adjustConfig cfg) ext input initState,
    kept_dropped_partition (adjustConfig cfg) ext input initState,
    fun h => keptChars_of_no_filter (adjustConfig cfg) ext h input initState⟩
  have hguard' : ((adjustConfig cfg).context_size : Int) - 1 <
      ((adjustConfig cfg).min_chars_after_delimiter : Int) := hguard
  have htok' : ∀ t : List Char,
      noWS ((tokenize_sentences ext.custom ext.backend
        (adjustConfig cfg).poetic_mode
        (adjustConfig cfg).preserve_line_breaks t).flatten) = noWS t := htok
  show normalizeOut (adjustConfig cfg) ext
      ((generate_sentences_async cfg ext input).flatten) =
    normalizeOut (adjustConfig cfg) ext
      (keptChars (adjustConfig cfg) ext initState input)
  rw [generate_sentences_async, List.flatten_append, norm_append,
    finalize_conserves (adjustConfig cfg) ext htok' _, ← norm_append]
  have h := run_chars_conserves (adjustConfig cfg) ext hguard' input initState
  simpa using h

theorem tokenize_sentences_identity (backend : List Char → BackendResult)
    (pm plb : Bool) (t : List Char) :
    tokenize_sentences (some (fun t => Except.ok [t])) backend pm plb t = [t] := by
  simp only [tokenize_sentences]
  have hm : mergeAdopt [t] = [t] := by
    rw [mergeAdopt, if_neg]
    intro hc
    have h2 := hc.2
    simp only [List.length_singleton] at h2
    exact hc.1 (List.length_eq_zero.mp (by omega))
  rw [postProcess, hm, if_neg (by simp)]

/-- C1 witness: under the default configuration — leading filter on,
emoji cleanup off — with the identity tokenizer, the fragments emitted
for a stream with two leading `+` characters normalize to exactly the
kept characters of the input. -/
theorem stream_conservation_witness :
    ((({} : Config).context_size : Int) - 1 <
        (({} : Config).min_chars_after_delimiter : Int)) ∧
    normalizeOut ({} : Config) extId ((generate_sentences_async ({} : Config)
        extId "++Hello there friend.".toList).flatten) =
      normalizeOut ({} : Config) extId
        (keptChars (adjustConfig ({} : Config)) extId initState
          "++Hello there friend.".toList) := by
  refine ⟨by decide, ?_⟩
  exact (stream_conservation ({} : Config) extId
    "++Hello there friend.".toList (by decide)
    (fun t => by
      show noWS ((tokenize_sentences (some (fun t => Except.ok [t]))
        (fun _ => BackendResult.rawFallback) false false t).flatten) = noWS t
      rw [tokenize_sentences_identity]
      simp)).1

/-- C1 counterexample: with `context_size = 3`, `min_chars_after_delimiter
= 2`, `minimum_sentence_length = 30`, `tokenization_interval = 1` and a
faithful (concatenation-preserving) custom tokenizer that splits the
buffer into sentences of lengths 20, 10 and 6, the 10-character sentence
`"KLMNOPQRST"` is below `minimum_sentence_length // 2 = 15`: it is
removed from the buffer without being emitted, so its characters are lost
from the output. -/
theorem stream_conservation_counterexample :
    generate_sentences_async
        { context_size := 3, minimum_sentence_length := 30,
          tokenization_interval := 1, min_chars_after_delimiter := 2,
          quick_yield_single_sentence_fragment := false : Config }
        { custom := some (fun t => Except.ok
            (if t = "abcdefghijABCDEFGHIJKLMNOPQRSTuvw.xy".toList then
              ["abcdefghijABCDEFGHIJ".toList, "KLMNOPQRST".toList,
               "uvw.xy".toList]
            else [t])),
          backend := fun _ => BackendResult.raised,
          isEmoji := fun _ => false }
        "abcdefghijABCDEFGHIJKLMNOPQRSTuvw.xy".toList =
      ["abcdefghijABCDEFGHIJ".toList, "uvw.xy".toList] ∧
    ("abcdefghijABCDEFGHIJKLMNOPQRSTuvw.xy".toList).count 'K' = 1 ∧
    ((generate_sentences_async
        { context_size := 3, minimum_sentence_length := 30,
          tokenization_interval := 1, min_chars_after_delimiter := 2,
          quick_yield_single_sentence_fragment := false : Config }
        { custom := some (fun t => Except.ok
            (if t = "abcdefghijABCDEFGHIJKLMNOPQRSTuvw.xy".toList then
              ["abcdefghijABCDEFGHIJ".toList, "KLMNOPQRST".toList,
               "uvw.xy".toList]
            else [t])),
          backend := fun _ => BackendResult.raised,
          isEmoji := fun _ => false }
        "abcdefghijABCDEFGHIJKLMNOPQRSTuvw.xy".toList).flatten).count 'K' = 0 := by
  refine ⟨by decide, by decide, by decide⟩

end Stream2Sentence
